import Mathlib

/-!
The goaws core: the in-memory SQS message/queue core (`app/sqs.go`)

A shallow embedding of `app/sqs.go` and a verification of its FIFO group
sequencing and locking (`Queue.NextSequenceNumber`, `Queue.IsLocked`,
`Queue.LockGroup`, `Queue.UnlockGroup`) and of its delivery-readiness
check (`Message.IsReadyForReceipt`, `getRandomLatency`).

Conventions of the embedding:

* Go's `int` is the 64-bit two's-complement integer: values are `Int`, and
  every arithmetic result the code stores is reduced by `wrap64`.
* A Go `map[string]int` is `GoMap`: either the nil map or an allocated table.
  Reading a nil map yields "absent", deleting from it does nothing, storing
  into it panics.
* Code that may panic returns `Run α`.
* The process environment, the value produced by the shared random source and
  the wall clock are read by the Go code from its surroundings; here they are
  explicit arguments (`getenv`, `r`, `now`).
* An instant (`time.Time`) is a count of nanoseconds on one timeline, taken
  far from the limits of the library's representation; a `time.Duration` is a
  signed nanosecond count.
-/

namespace Goaws

/-! ## Go runtime model -/

/-- Outcome of running a piece of Go code: it returns a value, or it panics. -/
inductive Run (α : Type) where
  | done : α → Run α
  | panic : String → Run α
  deriving DecidableEq

/-- Smallest value of Go's 64-bit `int`. -/
def minInt : Int := -9223372036854775808

/-- Largest value of Go's 64-bit `int`. -/
def maxInt : Int := 9223372036854775807

/-- Two's-complement reduction of an integer to the range of a 64-bit `int`. -/
def wrap64 (x : Int) : Int :=
  (x + 9223372036854775808) % 18446744073709551616 - 9223372036854775808

/-- Go `map[string]int`: the nil map, or an allocated table from keys to values. -/
inductive GoMap where
  | nil : GoMap
  | table : (String → Option Int) → GoMap

/-- The comma-ok read `v, ok := m[k]`: `some v` when the key is present. -/
def GoMap.lookup : GoMap → String → Option Int
  | .nil, _ => none
  | .table f, k => f k

/-- The plain read `m[k]`: the stored value, or the zero value when absent. -/
def GoMap.index (m : GoMap) (k : String) : Int :=
  (m.lookup k).getD 0

/-- The store `m[k] = v`: panics on the nil map. -/
def GoMap.assign : GoMap → String → Int → Run GoMap
  | .nil, _, _ => .panic "assignment to entry in nil map"
  | .table f, k, v => .done (.table (fun x => if x = k then some v else f x))

/-- The builtin `delete(m, k)`: a no-op on the nil map and on an absent key. -/
def GoMap.delete : GoMap → String → GoMap
  | .nil, _ => .nil
  | .table f, k => .table (fun x => if x = k then none else f x)

/-- The composite literal `map[string]int{k: v}`: a new table with one entry. -/
def GoMap.literal (k : String) (v : Int) : GoMap :=
  .table (fun x => if x = k then some v else none)

/-- The result of `make(map[string]int)`: an allocated table with no entry. -/
def GoMap.empty : GoMap :=
  .table (fun _ => none)

/-- Decimal text of an integer, as `strconv.Itoa` prints it. -/
def Itoa (i : Int) : String :=
  if i < 0 then "-" ++ Nat.repr i.natAbs else Nat.repr i.natAbs

/-! ## Data model (`app/sqs.go`, lines 28-98) -/

/-- An instant of the wall clock (`time.Time`), in nanoseconds. -/
structure Time where
  ns : Int
  deriving DecidableEq

/-- A `time.Duration`: a signed count of nanoseconds. -/
abbrev Duration := Int

/-- Method `Time.Add` of the Go library: the instant `d` later. -/
def Time.Add (t : Time) (d : Duration) : Time :=
  ⟨t.ns + d⟩

/-- Method `Time.Before` of the Go library: strictly earlier. -/
def Time.Before (t u : Time) : Bool :=
  decide (t.ns < u.ns)

/-- Struct `MessageAttributeValue`. -/
structure MessageAttributeValue where
  Name : String
  DataType : String
  Value : String
  ValueKey : String
  deriving DecidableEq

/-- Struct `Message`. -/
structure Message where
  MessageBody : List Nat
  Uuid : String
  MD5OfMessageAttributes : String
  MD5OfMessageBody : String
  ReceiptHandle : String
  ReceiptTime : Time
  VisibilityTimeout : Time
  NumberOfReceives : Int
  Retry : Int
  MessageAttributes : String → Option MessageAttributeValue
  GroupID : String
  SentTime : Time

/-- Struct `Queue`. The pointer `DeadLetterQueue` is kept as the name of the
queue it refers to; none of the verified methods reads or writes it. -/
structure Queue where
  Name : String
  URL : String
  Arn : String
  TimeoutSecs : Int
  ReceiveWaitTimeSecs : Int
  Messages : List Message
  DeadLetterQueue : Option String
  MaxReceiveCount : Int
  IsFIFO : Bool
  FIFOMessages : GoMap
  FIFOSequenceNumbers : GoMap

/-! ## FIFO group sequencing and locking (`app/sqs.go`, lines 109-137) -/

/-- Method `NextSequenceNumber`: when the group has no counter the counter table
is set to a new one-entry table for it; the group's counter is then
incremented and printed. -/
def Queue.NextSequenceNumber (q : Queue) (groupId : String) : Run (Queue × String) :=
  let q1 : Queue :=
    match q.FIFOSequenceNumbers.lookup groupId with
    | some _ => q
    | none => { q with FIFOSequenceNumbers := GoMap.literal groupId 0 }
  match q1.FIFOSequenceNumbers.assign groupId
      (wrap64 (q1.FIFOSequenceNumbers.index groupId + 1)) with
  | .panic msg => .panic msg
  | .done t =>
    let q2 : Queue := { q1 with FIFOSequenceNumbers := t }
    .done (q2, Itoa (q2.FIFOSequenceNumbers.index groupId))

/-- Method `IsLocked`: whether the group is a key of the lock table. -/
def Queue.IsLocked (q : Queue) (groupId : String) : Bool :=
  (q.FIFOMessages.lookup groupId).isSome

/-- Method `LockGroup`: when the group is not a key of the lock table, the lock
table is set to a new one-entry table for it. -/
def Queue.LockGroup (q : Queue) (groupId : String) : Queue :=
  match q.FIFOMessages.lookup groupId with
  | some _ => q
  | none => { q with FIFOMessages := GoMap.literal groupId 0 }

/-- Method `UnlockGroup`: when the group is a key of the lock table, the key is
deleted from it. -/
def Queue.UnlockGroup (q : Queue) (groupId : String) : Queue :=
  match q.FIFOMessages.lookup groupId with
  | some _ => { q with FIFOMessages := q.FIFOMessages.delete groupId }
  | none => q

/-! ### Call sequences -/

/-- A queue with no message whose two FIFO tables are the given ones. -/
def Queue.withTables (locks counters : GoMap) : Queue :=
  { Name := "orders.fifo", URL := "", Arn := "", TimeoutSecs := 0,
    ReceiveWaitTimeSecs := 0, Messages := [], DeadLetterQueue := none,
    MaxReceiveCount := 0, IsFIFO := true,
    FIFOMessages := locks, FIFOSequenceNumbers := counters }

/-- The strings returned by calling `NextSequenceNumber` once for each group of
the list, in order, each call acting on the state the previous one left. -/
def nextSequenceNumbers : Queue → List String → Run (List String)
  | _, [] => .done []
  | q, g :: gs =>
    match q.NextSequenceNumber g with
    | .panic msg => .panic msg
    | .done (q1, s) =>
      match nextSequenceNumbers q1 gs with
      | .panic msg => .panic msg
      | .done ss => .done (s :: ss)

/-- A call of one of the two methods that change the lock table. -/
inductive LockCall where
  | lock : String → LockCall
  | unlock : String → LockCall
  deriving DecidableEq

/-- The group a call names. -/
def LockCall.group : LockCall → String
  | .lock g => g
  | .unlock g => g

/-- The state after a sequence of `LockGroup` and `UnlockGroup` calls. -/
def runLockCalls : Queue → List LockCall → Queue
  | q, [] => q
  | q, .lock g :: cs => runLockCalls (q.LockGroup g) cs
  | q, .unlock g :: cs => runLockCalls (q.UnlockGroup g) cs

/-- Whether the most recent call of the sequence that names `g` is a
`LockGroup`; false when no call names `g`. -/
def lastCallLocks (g : String) : List LockCall → Bool
  | [] => false
  | c :: cs =>
    match cs.find? (fun d => d.group = g) with
    | some _ => lastCallLocks g cs
    | none => decide (c = .lock g)

/-! ## Delivery readiness (`app/sqs.go`, lines 43-77) -/

/-- Value of a decimal digit character, none for any other character. -/
def digitValue (c : Char) : Option Nat :=
  if 48 ≤ c.toNat ∧ c.toNat ≤ 57 then some (c.toNat - 48) else none

/-- Value of a run of decimal digits read left to right from the accumulator
`acc`; none when a character is not a digit. -/
def digitsValue : List Char → Nat → Option Nat
  | [], acc => some acc
  | c :: cs, acc =>
    match digitValue c with
    | none => none
    | some d => digitsValue cs (acc * 10 + d)

/-- Library function `strconv.Atoi` on a 64-bit platform: one leading `-` or `+`
is dropped, what remains must be one or more decimal digits, the value is
negated when the first character was `-`, and it must fit an `int`. The result
is none exactly when Go returns a non-nil error (bad syntax or out of range). -/
def Atoi (s : String) : Option Int :=
  let cs : List Char := s.data
  let neg : Bool := decide (cs.head? = some '-')
  let ds : List Char :=
    if cs.head? = some '-' ∨ cs.head? = some '+' then cs.tail else cs
  if ds = [] then none
  else
    match digitsValue ds 0 with
    | none => none
    | some n =>
      let v : Int := if neg then -(n : Int) else (n : Int)
      if minInt ≤ v ∧ v ≤ maxInt then some v else none

/-- Library function `rand.Intn` on the shared source: panics unless `n` is
positive, otherwise returns a value of `[0, n)`. The argument `r` is the raw
value the source produces for this call; as `r` varies, every value of
`[0, n)` is returned. -/
def Intn (r : Nat) (n : Int) : Run Int :=
  if n ≤ 0 then .panic "invalid argument to Intn" else .done ((r : Int) % n)

/-- The call `time.ParseDuration(fmt.Sprintf("%dms", v))` for an `int` `v`. The
text is an optional minus sign, the decimal digits of the magnitude and the
unit `ms`. The library reads the digits as an unsigned number, rejects it when
it exceeds `(1 << 63) / unit` with `unit` the 1000000 nanoseconds of a
millisecond, scales it, and rejects a total beyond the range of a `Duration`.
The result is none exactly when Go returns a non-nil error. -/
def ParseDurationMs (v : Int) : Option Duration :=
  let neg : Bool := decide (v < 0)
  let n : Nat := v.natAbs
  if n > 9223372036854775808 / 1000000 then none
  else
    let d : Nat := n * 1000000
    if d > 9223372036854775808 then none
    else if neg then some (-(d : Int))
    else if d > 9223372036854775807 then none
    else some (d : Int)

/-- Function `getRandomLatency`: the pair `(time.Duration, error)` it returns,
with none for the nil error, or the panic of `rand.Intn`. `getenv` is
`os.Getenv` (the empty string for an unset variable) and `r` the raw value of
the random source. -/
def getRandomLatency (getenv : String → String) (r : Nat) : Run (Duration × Option String) :=
  let minVar := getenv "GOAWS_RANDOM_LATENCY_MIN"
  let maxVar := getenv "GOAWS_RANDOM_LATENCY_MAX"
  if minVar = "" ∨ maxVar = "" then .done (0, none)
  else
    match Atoi minVar with
    | none => .done (0, some ("Invalid value for GOAWS_RANDOM_LATENCY_MIN: " ++ minVar))
    | some min =>
      match Atoi maxVar with
      | none => .done (0, some ("Invalid value for GOAWS_RANDOM_LATENCY_MAX: " ++ maxVar))
      | some max =>
        let drawn : Run Int :=
          if max = min then .done max
          else
            match Intn r (wrap64 (max - min)) with
            | .panic msg => .panic msg
            | .done v => .done (wrap64 (v + min))
        match drawn with
        | .panic msg => .panic msg
        | .done randomLatencyValue =>
          match ParseDurationMs randomLatencyValue with
          | none =>
            .done (0, some ("Error parsing random latency value: "
              ++ Itoa randomLatencyValue ++ "ms"))
          | some randomDuration => .done (randomDuration, none)

/-- Method `IsReadyForReceipt`: true when the latency cannot be computed (the
error is logged), otherwise whether the send time plus the latency is strictly
before `now`, the value of `time.Now()`. Writing to the log is not modelled. -/
def Message.IsReadyForReceipt (m : Message) (getenv : String → String) (r : Nat)
    (now : Time) : Run Bool :=
  match getRandomLatency getenv r with
  | .panic msg => .panic msg
  | .done (randomLatency, err) =>
    match err with
    | some _ => .done true
    | none => .done ((m.SentTime.Add randomLatency).Before now)

/-- The environment in which the two latency bounds hold the given texts (the
empty text for an unset variable) and every other variable is unset. -/
def latencyEnv (minVar maxVar : String) : String → String :=
  fun name =>
    if name = "GOAWS_RANDOM_LATENCY_MIN" then minVar
    else if name = "GOAWS_RANDOM_LATENCY_MAX" then maxVar
    else ""

/-- A message with empty content sent at the given nanosecond. -/
def Message.sentAt (t : Int) : Message :=
  { MessageBody := [], Uuid := "", MD5OfMessageAttributes := "",
    MD5OfMessageBody := "", ReceiptHandle := "", ReceiptTime := ⟨0⟩,
    VisibilityTimeout := ⟨0⟩, NumberOfReceives := 0, Retry := 0,
    MessageAttributes := fun _ => none, GroupID := "", SentTime := ⟨t⟩ }

/-! ## Reachable FIFO states -/

/-- A call of one of the three methods that change the FIFO tables. -/
inductive FifoCall where
  | next : String → FifoCall
  | lock : String → FifoCall
  | unlock : String → FifoCall
  deriving DecidableEq

/-- The state after a sequence of `NextSequenceNumber`, `LockGroup` and
`UnlockGroup` calls, each acting on the state the previous one left. -/
def runFifoCalls : Queue → List FifoCall → Run Queue
  | q, [] => .done q
  | q, .next g :: cs =>
    match q.NextSequenceNumber g with
    | .panic msg => .panic msg
    | .done (q1, _) => runFifoCalls q1 cs
  | q, .lock g :: cs => runFifoCalls (q.LockGroup g) cs
  | q, .unlock g :: cs => runFifoCalls (q.UnlockGroup g) cs

/-- The table has no key: the nil map or an allocated map without entry. -/
def GoMap.hasNoKey (t : GoMap) : Prop :=
  ∀ g : String, t.lookup g = none

/-- The table holds at most one group: any two keys of it are the same. -/
def GoMap.atMostOneKey (t : GoMap) : Prop :=
  ∀ g h : String, (t.lookup g).isSome = true → (t.lookup h).isSome = true → g = h

/-! ## Polling (specification, section 4.3) -/

/-- Modelled from the spec: the FIFO branch of `PollReady`, which is not in
`app/sqs.go`. Of the messages still to examine it returns, in queue order,
each one that is the head of its group (no message enqueued earlier has its
group id) and whose group lock is not held. `earlier` holds the messages that
precede the ones still to examine. -/
def pollFIFO (q : Queue) : List Message → List Message → List Message
  | _, [] => []
  | earlier, m :: later =>
    if earlier.all (fun e => decide (e.GroupID ≠ m.GroupID)) && !q.IsLocked m.GroupID then
      m :: pollFIFO q (earlier ++ [m]) later
    else pollFIFO q (earlier ++ [m]) later

/-- Modelled from the spec: `PollReady(queue, now)`, which is not in
`app/sqs.go`. For a standard queue it returns any message whose visibility
window has elapsed and which is not already in flight; the spec does not
define these two notions and they are the arguments `visibilityElapsed` and
`inFlight`. For a FIFO queue it returns only the head (earliest-enqueued)
message of each group whose group lock is not held. -/
def PollReady (visibilityElapsed : Message → Time → Bool) (inFlight : Message → Bool)
    (q : Queue) (now : Time) : List Message :=
  if q.IsFIFO then pollFIFO q [] q.Messages
  else q.Messages.filter (fun m => visibilityElapsed m now && !inFlight m)

/-- A message of the given group with the given body, sent at nanosecond 0. -/
def Message.inGroup (g : String) (body : List Nat) : Message :=
  { Message.sentAt 0 with GroupID := g, MessageBody := body }

/-- A FIFO queue holding, in this order, one message of group A and two of
group B, with group A locked. -/
def Queue.sampleFIFO : Queue :=
  { Queue.withTables (GoMap.literal "A" 0) GoMap.empty with
    Messages := [Message.inGroup "A" [1], Message.inGroup "B" [2], Message.inGroup "B" [3]] }

/-! ## Shared lemmas -/

theorem wrap64_of_int (x : Int) (hlo : minInt ≤ x) (hhi : x ≤ maxInt) : wrap64 x = x := by
  unfold wrap64
  unfold minInt at hlo
  unfold maxInt at hhi
  omega

theorem lookup_literal_self (k : String) (v : Int) : (GoMap.literal k v).lookup k = some v := by
  simp [GoMap.literal, GoMap.lookup]

theorem lookup_literal_other (k h : String) (v : Int) (hne : h ≠ k) :
    (GoMap.literal k v).lookup h = none := by
  simp [GoMap.literal, GoMap.lookup, hne]

theorem Atoi_empty : Atoi "" = none := by
  decide

/-! ### `Atoi` reads back what `Itoa` prints -/

theorem digitChar_toNat (x : Nat) (h : x < 10) : (Nat.digitChar x).toNat = x + 48 := by
  interval_cases x <;> rfl

theorem digitValue_digitChar (x : Nat) (h : x < 10) : digitValue (Nat.digitChar x) = some x := by
  unfold digitValue
  rw [digitChar_toNat x h]
  rw [if_pos ⟨by omega, by omega⟩]
  simp

theorem toDigitsCore_head (fuel n : Nat) (ds : List Char) :
    ∃ c rest, Nat.toDigitsCore 10 (fuel + 1) n ds = c :: rest ∧ 48 ≤ c.toNat ∧ c.toNat ≤ 57 := by
  induction fuel generalizing n ds with
  | zero =>
    have hd := digitChar_toNat (n % 10) (Nat.mod_lt _ (by decide))
    unfold Nat.toDigitsCore
    simp only
    split
    · exact ⟨_, _, rfl, by omega, by omega⟩
    · unfold Nat.toDigitsCore
      exact ⟨_, _, rfl, by omega, by omega⟩
  | succ k ih =>
    have hd := digitChar_toNat (n % 10) (Nat.mod_lt _ (by decide))
    unfold Nat.toDigitsCore
    simp only
    split
    · exact ⟨_, _, rfl, by omega, by omega⟩
    · exact ih _ _

theorem digitsValue_toDigitsCore (fuel : Nat) :
    ∀ n : Nat, n < fuel → ∃ k : Nat, ∀ (ds : List Char) (acc : Nat),
      digitsValue (Nat.toDigitsCore 10 fuel n ds) acc = digitsValue ds (acc * 10 ^ k + n) := by
  induction fuel with
  | zero => intro n h; omega
  | succ f ih =>
    intro n hn
    have hd := digitValue_digitChar (n % 10) (Nat.mod_lt _ (by decide))
    by_cases h0 : n / 10 = 0
    · refine ⟨1, fun ds acc => ?_⟩
      unfold Nat.toDigitsCore
      simp only [h0, if_true, digitsValue, hd]
      congr 1
      omega
    · obtain ⟨k, hk⟩ := ih (n / 10) (by omega)
      refine ⟨k + 1, fun ds acc => ?_⟩
      unfold Nat.toDigitsCore
      simp only [h0, if_false]
      rw [hk, digitsValue]
      simp only [hd]
      congr 1
      rw [pow_succ]
      have := Nat.div_add_mod n 10
      nlinarith

theorem digitsValue_toDigits (n : Nat) : digitsValue (Nat.toDigits 10 n) 0 = some n := by
  obtain ⟨k, hk⟩ := digitsValue_toDigitsCore (n + 1) n (by omega)
  unfold Nat.toDigits
  rw [hk]
  simp [digitsValue]

theorem Atoi_Itoa (L : Int) (hlo : minInt ≤ L) (hhi : L ≤ maxInt) : Atoi (Itoa L) = some L := by
  obtain ⟨c, rest, hcr, hc1, hc2⟩ := toDigitsCore_head L.natAbs L.natAbs []
  have hdig : Nat.toDigits 10 L.natAbs = c :: rest := hcr
  have hval := digitsValue_toDigits L.natAbs
  have hminus : c ≠ '-' := by
    intro h
    rw [h] at hc1
    exact absurd hc1 (by decide)
  have hplus : c ≠ '+' := by
    intro h
    rw [h] at hc1
    exact absurd hc1 (by decide)
  unfold Itoa Atoi
  by_cases hneg : L < 0
  · have hdata : ("-" ++ Nat.repr L.natAbs).data = '-' :: c :: rest := by
      rw [String.data_append, Nat.repr, ← hdig]
      rfl
    rw [if_pos hneg]
    simp only [hdata, List.head?_cons, true_or, if_true, List.tail_cons, decide_True]
    have habs : -(L.natAbs : Int) = L := by omega
    rw [if_neg (List.cons_ne_nil _ _), ← hdig, hval]
    simp only [if_true, habs]
    rw [if_pos ⟨hlo, hhi⟩]
  · have hdata : (Nat.repr L.natAbs).data = c :: rest := by
      rw [Nat.repr, ← hdig]
      rfl
    rw [if_neg hneg]
    simp only [hdata, List.head?_cons, Option.some.injEq, hminus, hplus, or_self, if_false,
      decide_False]
    have habs : (L.natAbs : Int) = L := by omega
    rw [if_neg (List.cons_ne_nil _ _), ← hdig, hval]
    simp only [Bool.false_eq_true, if_false, habs]
    rw [if_pos ⟨hlo, hhi⟩]

/-! ## FIFO group sequencing and locking -/

/-- C1: the per-group numbering 1, 2, 3, ... does not survive interleaving. On a
queue whose counter table starts empty, the calls for groups A, B, A return
"1", "1", "1": the second call naming A returns "1" again, not "2". -/
theorem nextSequenceNumbers_restart_after_other_group :
    nextSequenceNumbers (Queue.withTables GoMap.empty GoMap.empty) ["A", "B", "A"]
      = Run.done ["1", "1", "1"] := by
  decide

/-- C2: a lock is lost when another group is locked. After `LockGroup` for A and
then for B on a queue with an empty lock table, the most recent call naming A
is a `LockGroup`, yet `IsLocked` is false for A. -/
theorem runLockCalls_lock_lost :
    lastCallLocks "A" [LockCall.lock "A", LockCall.lock "B"] = true ∧
    (runLockCalls (Queue.withTables GoMap.empty GoMap.empty)
      [LockCall.lock "A", LockCall.lock "B"]).IsLocked "A" = false := by
  decide

/-- C3: `NextSequenceNumber` for an unseen group discards the other counters.
With the counter of A at 5 and no counter for B, the call for B returns "1"
and leaves a table in which A has no counter. -/
theorem NextSequenceNumber_unseen_drops_counters :
    (Queue.withTables GoMap.empty (GoMap.literal "A" 5)).FIFOSequenceNumbers.lookup "A"
      = some 5 ∧
    ∃ q1 : Queue,
      (Queue.withTables GoMap.empty (GoMap.literal "A" 5)).NextSequenceNumber "B"
        = Run.done (q1, "1") ∧
      q1.FIFOSequenceNumbers.lookup "A" = none ∧
      q1.FIFOSequenceNumbers.lookup "B" = some 1 := by
  refine ⟨by decide, _, rfl, by decide, by decide⟩

/-- C4: `LockGroup` for a group that is not locked discards the other locks.
With A locked and B not, `LockGroup` for B leaves A unlocked. -/
theorem LockGroup_unlocked_drops_locks :
    (Queue.withTables (GoMap.literal "A" 0) GoMap.empty).IsLocked "A" = true ∧
    ((Queue.withTables (GoMap.literal "A" 0) GoMap.empty).LockGroup "B").IsLocked "A"
      = false ∧
    ((Queue.withTables (GoMap.literal "A" 0) GoMap.empty).LockGroup "B").IsLocked "B"
      = true := by
  decide

/-! ## Delivery readiness -/

theorem ParseDurationMs_fits (v : Int) (h : v.natAbs ≤ 9223372036854) :
    ParseDurationMs v = some (v * 1000000) := by
  unfold ParseDurationMs
  simp only [Nat.reduceDiv]
  rw [if_neg (by omega), if_neg (by omega)]
  by_cases hv : v < 0
  · have habs : (v.natAbs : Int) = -v := by omega
    simp only [hv, decide_True, if_true, Option.some.injEq, Nat.cast_mul, Nat.cast_ofNat]
    rw [habs]
    ring
  · have habs : (v.natAbs : Int) = v := by omega
    simp only [hv, decide_False, Bool.false_eq_true, if_false]
    rw [if_neg (by omega)]
    simp only [Option.some.injEq, Nat.cast_mul, Nat.cast_ofNat]
    rw [habs]

theorem ParseDurationMs_overflow (v : Int) (h : ¬ v.natAbs ≤ 9223372036854) :
    ParseDurationMs v = none := by
  unfold ParseDurationMs
  simp only [Nat.reduceDiv]
  rw [if_pos (by omega)]

theorem getRandomLatency_equal_bounds (getenv : String → String) (L : Int) (r : Nat)
    (hmin : Atoi (getenv "GOAWS_RANDOM_LATENCY_MIN") = some L)
    (hmax : Atoi (getenv "GOAWS_RANDOM_LATENCY_MAX") = some L) :
    getRandomLatency getenv r =
      match ParseDurationMs L with
      | none => Run.done (0, some ("Error parsing random latency value: " ++ Itoa L ++ "ms"))
      | some d => Run.done (d, none) := by
  have h1 : getenv "GOAWS_RANDOM_LATENCY_MIN" ≠ "" := by
    intro h
    rw [h, Atoi_empty] at hmin
    cases hmin
  have h2 : getenv "GOAWS_RANDOM_LATENCY_MAX" ≠ "" := by
    intro h
    rw [h, Atoi_empty] at hmax
    cases hmax
  unfold getRandomLatency
  simp only [h1, h2, or_self, if_false, hmin, hmax, if_true]

/-- C5: with both latency bounds holding texts that `Atoi` reads as the same
integer `L`, `IsReadyForReceipt` returns, and it returns true exactly when the
current time is strictly later than the send time plus `L` milliseconds, as
long as `L` milliseconds fit a `Duration` (`|L| ≤ 9223372036854`); for a larger
`L` the duration cannot be parsed and the message is ready at every time. -/
theorem IsReadyForReceipt_fixed_latency (getenv : String → String) (L : Int) (r : Nat)
    (m : Message) (now : Time)
    (hmin : Atoi (getenv "GOAWS_RANDOM_LATENCY_MIN") = some L)
    (hmax : Atoi (getenv "GOAWS_RANDOM_LATENCY_MAX") = some L) :
    m.IsReadyForReceipt getenv r now =
      Run.done (if L.natAbs ≤ 9223372036854
        then decide (m.SentTime.ns + L * 1000000 < now.ns) else true) := by
  unfold Message.IsReadyForReceipt
  rw [getRandomLatency_equal_bounds getenv L r hmin hmax]
  by_cases hfit : L.natAbs ≤ 9223372036854
  · rw [ParseDurationMs_fits L hfit, if_pos hfit]
    simp only [Time.Add, Time.Before]
  · rw [ParseDurationMs_overflow L hfit, if_neg hfit]

/-- C5, at a concrete input: bounds "100" and "100", a message sent at
nanosecond 0, read 150 ms later. -/
theorem IsReadyForReceipt_fixed_latency_witness :
    Atoi (latencyEnv "100" "100" "GOAWS_RANDOM_LATENCY_MIN") = some 100 ∧
    Atoi (latencyEnv "100" "100" "GOAWS_RANDOM_LATENCY_MAX") = some 100 ∧
    (Message.sentAt 0).IsReadyForReceipt (latencyEnv "100" "100") 0 ⟨150000000⟩ =
      Run.done (if (100 : Int).natAbs ≤ 9223372036854
        then decide ((Message.sentAt 0).SentTime.ns + 100 * 1000000 < (150000000 : Int))
        else true) :=
  ⟨by decide, by decide,
   IsReadyForReceipt_fixed_latency (latencyEnv "100" "100") 100 0 (Message.sentAt 0)
     ⟨150000000⟩ (by decide) (by decide)⟩

/-- C5 fails as stated: with both bounds "100", a message sent at nanosecond 0
is not ready at exactly 100 ms although `t >= SentTime + L` holds there; and
with both bounds "9223372036855" it is ready at nanosecond 0 although
`t >= SentTime + L` does not hold. -/
theorem IsReadyForReceipt_fixed_latency_counterexample :
    ((Message.sentAt 0).IsReadyForReceipt (latencyEnv "100" "100") 0 ⟨100000000⟩
        = Run.done false ∧
      (Message.sentAt 0).SentTime.ns + 100 * 1000000 ≤ (100000000 : Int)) ∧
    ((Message.sentAt 0).IsReadyForReceipt
        (latencyEnv "9223372036855" "9223372036855") 0 ⟨0⟩ = Run.done true ∧
      ¬ ((Message.sentAt 0).SentTime.ns + 9223372036855 * 1000000 ≤ (0 : Int))) := by
  decide

/-- C6: with both latency bounds unset, or both holding "0", `IsReadyForReceipt`
returns true exactly when the current time is strictly later than the send
time; evaluated at the send time itself it returns false. -/
theorem IsReadyForReceipt_zero_latency (getenv : String → String) (r : Nat) (m : Message)
    (now : Time)
    (h : (getenv "GOAWS_RANDOM_LATENCY_MIN" = "" ∧ getenv "GOAWS_RANDOM_LATENCY_MAX" = "") ∨
      (getenv "GOAWS_RANDOM_LATENCY_MIN" = "0" ∧ getenv "GOAWS_RANDOM_LATENCY_MAX" = "0")) :
    m.IsReadyForReceipt getenv r now = Run.done (decide (m.SentTime.ns < now.ns)) ∧
    m.IsReadyForReceipt getenv r m.SentTime = Run.done false := by
  have key : getRandomLatency getenv r = Run.done (0, none) := by
    rcases h with ⟨h1, h2⟩ | ⟨h1, h2⟩
    · unfold getRandomLatency
      simp only [h1, h2, or_self, if_true]
    · have a0 : Atoi "0" = some 0 := by decide
      rw [getRandomLatency_equal_bounds getenv 0 r (by rw [h1]; exact a0) (by rw [h2]; exact a0),
        ParseDurationMs_fits 0 (by decide)]
      rfl
  unfold Message.IsReadyForReceipt
  rw [key]
  simp [Time.Add, Time.Before]

/-- C6, at concrete inputs: a message sent at nanosecond 7 and read at
nanosecond 9, once with both bounds unset and once with both bounds "0". -/
theorem IsReadyForReceipt_zero_latency_witness :
    ((latencyEnv "" "" "GOAWS_RANDOM_LATENCY_MIN" = "" ∧
        latencyEnv "" "" "GOAWS_RANDOM_LATENCY_MAX" = "") ∧
      (Message.sentAt 7).IsReadyForReceipt (latencyEnv "" "") 0 ⟨9⟩ =
        Run.done (decide ((Message.sentAt 7).SentTime.ns < (9 : Int))) ∧
      (Message.sentAt 7).IsReadyForReceipt (latencyEnv "" "") 0 (Message.sentAt 7).SentTime =
        Run.done false) ∧
    ((latencyEnv "0" "0" "GOAWS_RANDOM_LATENCY_MIN" = "0" ∧
        latencyEnv "0" "0" "GOAWS_RANDOM_LATENCY_MAX" = "0") ∧
      (Message.sentAt 7).IsReadyForReceipt (latencyEnv "0" "0") 0 ⟨9⟩ =
        Run.done (decide ((Message.sentAt 7).SentTime.ns < (9 : Int))) ∧
      (Message.sentAt 7).IsReadyForReceipt (latencyEnv "0" "0") 0 (Message.sentAt 7).SentTime =
        Run.done false) :=
  ⟨⟨⟨by decide, by decide⟩,
     IsReadyForReceipt_zero_latency (latencyEnv "" "") 0 (Message.sentAt 7) ⟨9⟩
       (Or.inl ⟨by decide, by decide⟩)⟩,
   ⟨⟨by decide, by decide⟩,
     IsReadyForReceipt_zero_latency (latencyEnv "0" "0") 0 (Message.sentAt 7) ⟨9⟩
       (Or.inr ⟨by decide, by decide⟩)⟩⟩

/-- C6 fails as stated: with both bounds unset, and with both bounds "0", a
message evaluated at the very instant it was sent is not ready. -/
theorem IsReadyForReceipt_zero_latency_counterexample :
    (Message.sentAt 7).IsReadyForReceipt (latencyEnv "" "") 0 (Message.sentAt 7).SentTime
      = Run.done false ∧
    (Message.sentAt 7).IsReadyForReceipt (latencyEnv "0" "0") 0 (Message.sentAt 7).SentTime
      = Run.done false := by
  decide

/-- C7: readiness does not flip back from true to false between two evaluations
that obtain the same latency outcome (the same value drawn, or bounds that are
unset, malformed or equal, where none is drawn): for times `t < t'`, if
`IsReadyForReceipt` is true at `t` then it is true at `t'`. -/
theorem IsReadyForReceipt_monotone (getenv : String → String) (r r' : Nat) (m : Message)
    (t t' : Time) (hlat : getRandomLatency getenv r = getRandomLatency getenv r')
    (htt : t.ns < t'.ns) (hready : m.IsReadyForReceipt getenv r t = Run.done true) :
    m.IsReadyForReceipt getenv r' t' = Run.done true := by
  unfold Message.IsReadyForReceipt at hready ⊢
  rw [← hlat]
  cases hres : getRandomLatency getenv r with
  | panic msg =>
    rw [hres] at hready
    cases hready
  | done p =>
    obtain ⟨d, err⟩ := p
    rw [hres] at hready
    cases err with
    | some e => rfl
    | none =>
      simp only [Time.Add, Time.Before, Run.done.injEq, decide_eq_true_eq] at hready ⊢
      omega

/-- C7, at a concrete input: bounds "100" and "100", raw draws 0 and 7, a
message sent at nanosecond 0, read 150 ms and 200 ms later. -/
theorem IsReadyForReceipt_monotone_witness :
    getRandomLatency (latencyEnv "100" "100") 0 = getRandomLatency (latencyEnv "100" "100") 7 ∧
    (150000000 : Int) < 200000000 ∧
    (Message.sentAt 0).IsReadyForReceipt (latencyEnv "100" "100") 0 ⟨150000000⟩
      = Run.done true ∧
    (Message.sentAt 0).IsReadyForReceipt (latencyEnv "100" "100") 7 ⟨200000000⟩
      = Run.done true :=
  ⟨by decide, by decide, by decide,
   IsReadyForReceipt_monotone (latencyEnv "100" "100") 0 7 (Message.sentAt 0)
     ⟨150000000⟩ ⟨200000000⟩ (by decide) (by decide) (by decide)⟩

/-- C7 fails as stated: with bounds "0" and "1000" a message sent at nanosecond 0
is ready at 1 ms when the source yields 0, and not ready at the later time 2 ms
when the source yields 500. -/
theorem IsReadyForReceipt_monotone_counterexample :
    (1000000 : Int) < 2000000 ∧
    (Message.sentAt 0).IsReadyForReceipt (latencyEnv "0" "1000") 0 ⟨1000000⟩
      = Run.done true ∧
    (Message.sentAt 0).IsReadyForReceipt (latencyEnv "0" "1000") 500 ⟨2000000⟩
      = Run.done false := by
  decide

/-- C8: when both latency bounds are set (non-empty) and `Atoi` rejects at least
one of them, `IsReadyForReceipt` returns true for every message and every
current time. -/
theorem IsReadyForReceipt_malformed_fails_open (getenv : String → String) (r : Nat)
    (m : Message) (now : Time)
    (hmin : getenv "GOAWS_RANDOM_LATENCY_MIN" ≠ "")
    (hmax : getenv "GOAWS_RANDOM_LATENCY_MAX" ≠ "")
    (hbad : Atoi (getenv "GOAWS_RANDOM_LATENCY_MIN") = none ∨
      Atoi (getenv "GOAWS_RANDOM_LATENCY_MAX") = none) :
    m.IsReadyForReceipt getenv r now = Run.done true := by
  unfold Message.IsReadyForReceipt getRandomLatency
  simp only [hmin, hmax, or_self, if_false]
  cases h1 : Atoi (getenv "GOAWS_RANDOM_LATENCY_MIN") with
  | none => rfl
  | some a =>
    rcases hbad with h | h
    · rw [h1] at h
      cases h
    · simp only [h]

/-- C8, at a concrete input: bounds "abc" and "5", a message sent at nanosecond
10 and read at nanosecond 0. -/
theorem IsReadyForReceipt_malformed_fails_open_witness :
    latencyEnv "abc" "5" "GOAWS_RANDOM_LATENCY_MIN" ≠ "" ∧
    latencyEnv "abc" "5" "GOAWS_RANDOM_LATENCY_MAX" ≠ "" ∧
    Atoi (latencyEnv "abc" "5" "GOAWS_RANDOM_LATENCY_MIN") = none ∧
    (Message.sentAt 10).IsReadyForReceipt (latencyEnv "abc" "5") 0 ⟨0⟩ = Run.done true :=
  ⟨by decide, by decide, by decide,
   IsReadyForReceipt_malformed_fails_open (latencyEnv "abc" "5") 0 (Message.sentAt 10) ⟨0⟩
     (by decide) (by decide) (Or.inl (by decide))⟩

/-- C8 fails as stated: with the minimum bound "abc" (not a number) and the
maximum bound unset, a message sent at nanosecond 10 is not ready at
nanosecond 0, nor at nanosecond 10. -/
theorem IsReadyForReceipt_malformed_counterexample :
    Atoi "abc" = none ∧
    (Message.sentAt 10).IsReadyForReceipt (latencyEnv "abc" "") 0 ⟨0⟩ = Run.done false ∧
    (Message.sentAt 10).IsReadyForReceipt (latencyEnv "abc" "") 0 ⟨10⟩ = Run.done false := by
  decide

/-! ## Single-step postconditions -/

/-- C9: for a group whose counter `c` (0 when the group has no counter, also in
a nil table) is an `int` below the largest one, `NextSequenceNumber` returns
without panic the decimal text of `c + 1`, and the group's counter is `c + 1`
afterwards. -/
theorem NextSequenceNumber_post (q : Queue) (g : String)
    (hlo : minInt ≤ q.FIFOSequenceNumbers.index g)
    (hhi : q.FIFOSequenceNumbers.index g < maxInt) :
    ∃ q1 : Queue,
      q.NextSequenceNumber g = Run.done (q1, Itoa (q.FIFOSequenceNumbers.index g + 1)) ∧
      q1.FIFOSequenceNumbers.lookup g = some (q.FIFOSequenceNumbers.index g + 1) := by
  have hw : wrap64 (q.FIFOSequenceNumbers.index g + 1) = q.FIFOSequenceNumbers.index g + 1 :=
    wrap64_of_int _ (by omega) (by unfold maxInt at hhi ⊢; omega)
  obtain ⟨name, url, arn, timeout, wait, msgs, dlq, maxrc, fifo, locks, counters⟩ := q
  simp only at hw ⊢
  cases counters with
  | nil =>
    refine ⟨⟨name, url, arn, timeout, wait, msgs, dlq, maxrc, fifo, locks,
      GoMap.table (fun x => if x = g then some 1 else if x = g then some 0 else none)⟩, ?_, ?_⟩
    · simp [Queue.NextSequenceNumber, GoMap.lookup, GoMap.literal, GoMap.assign, GoMap.index,
        wrap64]
    · simp [GoMap.lookup, GoMap.index]
  | table f =>
    cases hf : f g with
    | none =>
      refine ⟨⟨name, url, arn, timeout, wait, msgs, dlq, maxrc, fifo, locks,
        GoMap.table (fun x => if x = g then some 1 else if x = g then some 0 else none)⟩, ?_, ?_⟩
      · simp [Queue.NextSequenceNumber, GoMap.lookup, GoMap.literal, GoMap.assign,
          GoMap.index, hf, wrap64]
      · simp [GoMap.lookup, GoMap.index, hf]
    | some c =>
      have hwc : wrap64 (c + 1) = c + 1 := by
        simpa [GoMap.index, GoMap.lookup, hf] using hw
      refine ⟨⟨name, url, arn, timeout, wait, msgs, dlq, maxrc, fifo, locks,
        GoMap.table (fun x => if x = g then some (c + 1) else f x)⟩, ?_, ?_⟩
      · simp [Queue.NextSequenceNumber, GoMap.lookup, GoMap.assign, GoMap.index, hf, hwc]
      · simp [GoMap.lookup, GoMap.index, hf]

/-- C9, at a concrete input: on a queue with nil tables the call for group
"cust-42" returns "1" and sets the counter to 1; two consecutive calls return
"1" then "2". -/
theorem NextSequenceNumber_post_witness :
    (minInt ≤ (Queue.withTables GoMap.nil GoMap.nil).FIFOSequenceNumbers.index "cust-42" ∧
      (Queue.withTables GoMap.nil GoMap.nil).FIFOSequenceNumbers.index "cust-42" < maxInt) ∧
    (∃ q1 : Queue,
      (Queue.withTables GoMap.nil GoMap.nil).NextSequenceNumber "cust-42" =
        Run.done (q1,
          Itoa ((Queue.withTables GoMap.nil GoMap.nil).FIFOSequenceNumbers.index "cust-42" + 1)) ∧
      q1.FIFOSequenceNumbers.lookup "cust-42" =
        some ((Queue.withTables GoMap.nil GoMap.nil).FIFOSequenceNumbers.index "cust-42" + 1)) ∧
    Itoa ((Queue.withTables GoMap.nil GoMap.nil).FIFOSequenceNumbers.index "cust-42" + 1) = "1" ∧
    nextSequenceNumbers (Queue.withTables GoMap.nil GoMap.nil) ["cust-42", "cust-42"]
      = Run.done ["1", "2"] :=
  ⟨⟨by decide, by decide⟩,
   NextSequenceNumber_post (Queue.withTables GoMap.nil GoMap.nil) "cust-42"
     (by decide) (by decide), by decide, by decide⟩

/-- C9 fails as stated: when the counter of a group is the largest `int`,
9223372036854775807, the increment wraps around; the call returns
"-9223372036854775808" and stores that negative value, not `c + 1`. -/
theorem NextSequenceNumber_post_counterexample :
    (Queue.withTables GoMap.empty
      (GoMap.literal "A" 9223372036854775807)).FIFOSequenceNumbers.index "A"
      = 9223372036854775807 ∧
    ∃ q1 : Queue,
      (Queue.withTables GoMap.empty (GoMap.literal "A" 9223372036854775807)).NextSequenceNumber
        "A" = Run.done (q1, "-9223372036854775808") ∧
      q1.FIFOSequenceNumbers.lookup "A" = some (-9223372036854775808) ∧
      Itoa (9223372036854775807 + 1) ≠ "-9223372036854775808" := by
  refine ⟨by decide, _, rfl, by decide, by decide⟩

/-- C10: for every queue state, also with a nil or empty lock table, and every
group, `IsLocked` is true for the group right after `LockGroup` for it. -/
theorem LockGroup_then_IsLocked (q : Queue) (g : String) :
    (q.LockGroup g).IsLocked g = true := by
  unfold Queue.LockGroup Queue.IsLocked
  cases h : q.FIFOMessages.lookup g with
  | some v => simp [h]
  | none => simp [lookup_literal_self]

/-! ## Unlocking and relocking -/

/-- C11: `UnlockGroup` removes exactly the key of the group from the lock
table. For every queue state and group `g`: `IsLocked` is false for `g` after
the call; every other group keeps its lock entry, hence its `IsLocked`; every
other field of the queue is unchanged; and when `g` was not locked (absent key
or nil table) the whole queue state is unchanged. The call cannot fail. -/
theorem UnlockGroup_removes_key (q : Queue) (g : String) :
    (q.UnlockGroup g).IsLocked g = false ∧
    (∀ h : String, h ≠ g →
      (q.UnlockGroup g).FIFOMessages.lookup h = q.FIFOMessages.lookup h ∧
      (q.UnlockGroup g).IsLocked h = q.IsLocked h) ∧
    q.UnlockGroup g = { q with FIFOMessages := (q.UnlockGroup g).FIFOMessages } ∧
    (q.IsLocked g = false → q.UnlockGroup g = q) := by
  obtain ⟨name, url, arn, timeout, wait, msgs, dlq, maxrc, fifo, locks, counters⟩ := q
  cases locks with
  | nil =>
    refine ⟨rfl, fun h _ => ⟨rfl, rfl⟩, rfl, fun _ => rfl⟩
  | table f =>
    cases hf : f g with
    | none =>
      simp [Queue.UnlockGroup, Queue.IsLocked, GoMap.lookup, hf]
    | some v =>
      simp only [Queue.UnlockGroup, Queue.IsLocked, GoMap.lookup, GoMap.delete, hf, if_true,
        Option.isSome_none, Option.isSome_some, true_and, and_true]
      refine ⟨fun h hne => ?_, fun hcontra => ?_⟩
      · simp [hne]
      · cases hcontra

/-- C11, at a concrete input: with A and B locked, `UnlockGroup` for A
unlocks A and keeps B locked; with only B locked it changes nothing. -/
theorem UnlockGroup_removes_key_witness :
    ((Queue.withTables (GoMap.table (fun x => if x = "A" ∨ x = "B" then some 0 else none))
        GoMap.empty).UnlockGroup "A").IsLocked "A" = false ∧
    ((Queue.withTables (GoMap.table (fun x => if x = "A" ∨ x = "B" then some 0 else none))
        GoMap.empty).UnlockGroup "A").IsLocked "B" = true ∧
    (Queue.withTables (GoMap.literal "B" 0) GoMap.nil).IsLocked "A" = false ∧
    (Queue.withTables (GoMap.literal "B" 0) GoMap.nil).UnlockGroup "A"
      = Queue.withTables (GoMap.literal "B" 0) GoMap.nil :=
  ⟨(UnlockGroup_removes_key (Queue.withTables
      (GoMap.table (fun x => if x = "A" ∨ x = "B" then some 0 else none)) GoMap.empty) "A").1,
   by decide, by decide,
   (UnlockGroup_removes_key (Queue.withTables (GoMap.literal "B" 0) GoMap.nil) "A").2.2.2
     (by decide)⟩

/-- C12: `LockGroup` is idempotent: for every queue state and group, a second
`LockGroup` for the same group right after the first leaves the queue in
exactly the state the first call produced. -/
theorem LockGroup_idempotent (q : Queue) (g : String) :
    (q.LockGroup g).LockGroup g = q.LockGroup g := by
  unfold Queue.LockGroup
  cases h : q.FIFOMessages.lookup g with
  | some v => simp only [h]
  | none => simp only [lookup_literal_self]

/-! ## Latency values -/

theorem Atoi_some_ne_empty (t : String) (v : Int) (h : Atoi t = some v) : t ≠ "" := by
  intro he
  rw [he, Atoi_empty] at h
  cases h

/-- C13: when both latency bounds hold the decimal text of the same integer `L`
and `L` milliseconds fit a `Duration` (`|L| ≤ 9223372036854`),
`getRandomLatency` returns exactly `L` milliseconds and no error, whatever the
random source would yield. -/
theorem getRandomLatency_constant (getenv : String → String) (L : Int) (r : Nat)
    (hmin : getenv "GOAWS_RANDOM_LATENCY_MIN" = Itoa L)
    (hmax : getenv "GOAWS_RANDOM_LATENCY_MAX" = Itoa L)
    (hfit : L.natAbs ≤ 9223372036854) :
    getRandomLatency getenv r = Run.done (L * 1000000, none) := by
  have hL : Atoi (Itoa L) = some L :=
    Atoi_Itoa L (by unfold minInt; omega) (by unfold maxInt; omega)
  rw [getRandomLatency_equal_bounds getenv L r (by rw [hmin]; exact hL) (by rw [hmax]; exact hL),
    ParseDurationMs_fits L hfit]

/-- C13, at a concrete input: both bounds "250", raw draws 0 and 99. -/
theorem getRandomLatency_constant_witness :
    latencyEnv "250" "250" "GOAWS_RANDOM_LATENCY_MIN" = Itoa 250 ∧
    latencyEnv "250" "250" "GOAWS_RANDOM_LATENCY_MAX" = Itoa 250 ∧
    (250 : Int).natAbs ≤ 9223372036854 ∧
    getRandomLatency (latencyEnv "250" "250") 0 = Run.done (250 * 1000000, none) ∧
    getRandomLatency (latencyEnv "250" "250") 99 = Run.done (250 * 1000000, none) :=
  ⟨by decide, by decide, by decide,
   getRandomLatency_constant (latencyEnv "250" "250") 250 0 (by decide) (by decide) (by decide),
   getRandomLatency_constant (latencyEnv "250" "250") 250 99 (by decide) (by decide) (by decide)⟩

/-- C13 fails as stated: with both bounds the decimal text of 9223372036855 the
duration cannot be parsed, and with both bounds the decimal text of
9223372036854775808 the bound itself is rejected; in both cases the function
returns latency 0 and an error. -/
theorem getRandomLatency_constant_counterexample :
    getRandomLatency (latencyEnv (Itoa 9223372036855) (Itoa 9223372036855)) 0
      = Run.done (0, some "Error parsing random latency value: 9223372036855ms") ∧
    getRandomLatency (latencyEnv (Itoa 9223372036854775808) (Itoa 9223372036854775808)) 0
      = Run.done (0, some "Invalid value for GOAWS_RANDOM_LATENCY_MIN: 9223372036854775808") := by
  decide

/-- C14: for integers `min < max` held by the two bounds with
`-9223372036854 ≤ min` and `max ≤ 9223372036855`, and for every raw value of
the random source, `getRandomLatency` returns no error and a latency `d` that
is a whole number of milliseconds with `min ms ≤ d < max ms`. -/
theorem getRandomLatency_range (getenv : String → String) (min max : Int) (r : Nat)
    (hmin : Atoi (getenv "GOAWS_RANDOM_LATENCY_MIN") = some min)
    (hmax : Atoi (getenv "GOAWS_RANDOM_LATENCY_MAX") = some max)
    (hlt : min < max) (hlo : -9223372036854 ≤ min) (hhi : max ≤ 9223372036855) :
    ∃ d : Duration, getRandomLatency getenv r = Run.done (d, none) ∧
      min * 1000000 ≤ d ∧ d < max * 1000000 ∧ (1000000 : Int) ∣ d := by
  have h1 := Atoi_some_ne_empty _ _ hmin
  have h2 := Atoi_some_ne_empty _ _ hmax
  have hne : ¬ max = min := by omega
  have hpos : 0 < max - min := by omega
  have hv0 : 0 ≤ (r : Int) % (max - min) := Int.emod_nonneg _ (by omega)
  have hv1 : (r : Int) % (max - min) < max - min := Int.emod_lt_of_pos _ hpos
  have hb1 : min * 1000000 ≤ ((r : Int) % (max - min) + min) * 1000000 := by omega
  have hb2 : ((r : Int) % (max - min) + min) * 1000000 < max * 1000000 := by omega
  have hfit : ((r : Int) % (max - min) + min).natAbs ≤ 9223372036854 := by omega
  have hwd : wrap64 (max - min) = max - min :=
    wrap64_of_int _ (by unfold minInt; omega) (by unfold maxInt; omega)
  have hwv : wrap64 ((r : Int) % (max - min) + min) = (r : Int) % (max - min) + min :=
    wrap64_of_int _ (by unfold minInt; omega) (by unfold maxInt; omega)
  refine ⟨((r : Int) % (max - min) + min) * 1000000, ?_, hb1, hb2, Dvd.intro_left _ rfl⟩
  unfold getRandomLatency
  simp only [h1, h2, or_self, if_false, hmin, hmax, hne, Intn, hwd, not_le.mpr hpos, hwv,
    ParseDurationMs_fits _ hfit]

/-- C14, at a concrete input: bounds "100" and "200", raw draw 250. -/
theorem getRandomLatency_range_witness :
    Atoi (latencyEnv "100" "200" "GOAWS_RANDOM_LATENCY_MIN") = some 100 ∧
    Atoi (latencyEnv "100" "200" "GOAWS_RANDOM_LATENCY_MAX") = some 200 ∧
    getRandomLatency (latencyEnv "100" "200") 250 = Run.done (150000000, none) ∧
    ∃ d : Duration, getRandomLatency (latencyEnv "100" "200") 250 = Run.done (d, none) ∧
      100 * 1000000 ≤ d ∧ d < 200 * 1000000 ∧ (1000000 : Int) ∣ d :=
  ⟨by decide, by decide, by decide,
   getRandomLatency_range (latencyEnv "100" "200") 100 200 250 (by decide) (by decide)
     (by decide) (by decide) (by decide)⟩

/-- C14 fails as stated: with bounds "0" and "9223372036856" and a source value
that draws 9223372036855, the duration cannot be parsed and the function
returns latency 0 with an error. -/
theorem getRandomLatency_range_counterexample :
    Atoi "0" = some 0 ∧ Atoi "9223372036856" = some 9223372036856 ∧
    getRandomLatency (latencyEnv "0" "9223372036856") 9223372036855
      = Run.done (0, some "Error parsing random latency value: 9223372036855ms") := by
  decide

/-- C16: readiness evaluation is not total. With the minimum bound "5" and the
maximum bound "1" the argument of `rand.Intn` is -4, `rand.Intn` panics, and
`IsReadyForReceipt` returns no boolean. -/
theorem IsReadyForReceipt_panics_min_above_max :
    wrap64 (1 - 5) = -4 ∧
    getRandomLatency (latencyEnv "5" "1") 0 = Run.panic "invalid argument to Intn" ∧
    (Message.sentAt 0).IsReadyForReceipt (latencyEnv "5" "1") 0 ⟨1000⟩
      = Run.panic "invalid argument to Intn" := by
  decide

/-- C18: when at least one of the two latency bounds is unset (empty),
`getRandomLatency` returns latency 0 and no error whatever the other bound
holds, and `IsReadyForReceipt` returns true exactly when the send time is
strictly before the current time. -/
theorem getRandomLatency_unset_bound (getenv : String → String) (r : Nat) (m : Message)
    (now : Time)
    (h : getenv "GOAWS_RANDOM_LATENCY_MIN" = "" ∨ getenv "GOAWS_RANDOM_LATENCY_MAX" = "") :
    getRandomLatency getenv r = Run.done (0, none) ∧
    m.IsReadyForReceipt getenv r now = Run.done (decide (m.SentTime.ns < now.ns)) := by
  have key : getRandomLatency getenv r = Run.done (0, none) := by
    unfold getRandomLatency
    simp only [h, if_true]
  refine ⟨key, ?_⟩
  unfold Message.IsReadyForReceipt
  rw [key]
  simp [Time.Add, Time.Before]

/-- C18, at concrete inputs: the minimum bound "abc" with the maximum unset, and
the minimum unset with the maximum "xyz"; a message sent at nanosecond 7. -/
theorem getRandomLatency_unset_bound_witness :
    (latencyEnv "abc" "" "GOAWS_RANDOM_LATENCY_MAX" = "" ∧
      getRandomLatency (latencyEnv "abc" "") 3 = Run.done (0, none) ∧
      (Message.sentAt 7).IsReadyForReceipt (latencyEnv "abc" "") 3 ⟨7⟩
        = Run.done (decide ((Message.sentAt 7).SentTime.ns < (7 : Int)))) ∧
    (latencyEnv "" "xyz" "GOAWS_RANDOM_LATENCY_MIN" = "" ∧
      getRandomLatency (latencyEnv "" "xyz") 3 = Run.done (0, none) ∧
      (Message.sentAt 7).IsReadyForReceipt (latencyEnv "" "xyz") 3 ⟨8⟩
        = Run.done (decide ((Message.sentAt 7).SentTime.ns < (8 : Int)))) :=
  ⟨⟨by decide,
     getRandomLatency_unset_bound (latencyEnv "abc" "") 3 (Message.sentAt 7) ⟨7⟩
       (Or.inr (by decide))⟩,
   ⟨by decide,
     getRandomLatency_unset_bound (latencyEnv "" "xyz") 3 (Message.sentAt 7) ⟨8⟩
       (Or.inl (by decide))⟩⟩

/-! ## Reachable FIFO states hold at most one group per table -/

theorem atMostOneKey_of_hasNoKey (t : GoMap) (h : t.hasNoKey) : t.atMostOneKey := by
  intro g k hg _
  rw [h g] at hg
  cases hg

theorem atMostOneKey_literal (k : String) (v : Int) : (GoMap.literal k v).atMostOneKey := by
  intro g h hg hh
  have e1 : g = k := by
    by_contra hne
    rw [lookup_literal_other k g v hne] at hg
    cases hg
  have e2 : h = k := by
    by_contra hne
    rw [lookup_literal_other k h v hne] at hh
    cases hh
  rw [e1, e2]

theorem LockGroup_atMostOneKey (q : Queue) (g : String) (hl : q.FIFOMessages.atMostOneKey) :
    (q.LockGroup g).FIFOMessages.atMostOneKey ∧
    (q.LockGroup g).FIFOSequenceNumbers = q.FIFOSequenceNumbers := by
  unfold Queue.LockGroup
  cases h : q.FIFOMessages.lookup g with
  | some v => exact ⟨hl, rfl⟩
  | none => exact ⟨atMostOneKey_literal g 0, rfl⟩

theorem UnlockGroup_atMostOneKey (q : Queue) (g : String) (hl : q.FIFOMessages.atMostOneKey) :
    (q.UnlockGroup g).FIFOMessages.atMostOneKey ∧
    (q.UnlockGroup g).FIFOSequenceNumbers = q.FIFOSequenceNumbers := by
  unfold Queue.UnlockGroup
  cases h : q.FIFOMessages.lookup g with
  | none => exact ⟨hl, rfl⟩
  | some v =>
    refine ⟨?_, rfl⟩
    cases hq : q.FIFOMessages with
    | nil =>
      rw [hq] at h
      cases h
    | table f =>
      intro a b ha hb
      rw [hq] at hl
      simp only [GoMap.delete, GoMap.lookup] at ha hb
      by_cases ea : a = g
      · simp [ea] at ha
      · by_cases eb : b = g
        · simp [eb] at hb
        · simp only [ea, eb, if_false] at ha hb
          exact hl a b ha hb

theorem NextSequenceNumber_atMostOneKey (q : Queue) (g : String)
    (hc : q.FIFOSequenceNumbers.atMostOneKey) :
    ∃ (q1 : Queue) (s : String), q.NextSequenceNumber g = Run.done (q1, s) ∧
      q1.FIFOMessages = q.FIFOMessages ∧ q1.FIFOSequenceNumbers.atMostOneKey := by
  obtain ⟨name, url, arn, timeout, wait, msgs, dlq, maxrc, fifo, locks, counters⟩ := q
  have single : ∀ v : Int,
      (GoMap.table (fun x => if x = g then some v
        else if x = g then some 0 else none)).atMostOneKey := by
    intro v a b ha hb
    simp only [GoMap.lookup] at ha hb
    have e1 : a = g := by
      by_contra hne
      simp [hne] at ha
    have e2 : b = g := by
      by_contra hne
      simp [hne] at hb
    rw [e1, e2]
  cases counters with
  | nil =>
    refine ⟨_, _, rfl, rfl, ?_⟩
    exact single _
  | table f =>
    cases hf : f g with
    | none =>
      refine ⟨⟨name, url, arn, timeout, wait, msgs, dlq, maxrc, fifo, locks,
        GoMap.table (fun x => if x = g then some (wrap64 (0 + 1))
          else if x = g then some 0 else none)⟩, Itoa (wrap64 (0 + 1)), ?_, rfl, single _⟩
      simp [Queue.NextSequenceNumber, GoMap.lookup, GoMap.literal, GoMap.assign, GoMap.index,
        hf]
    | some c =>
      refine ⟨⟨name, url, arn, timeout, wait, msgs, dlq, maxrc, fifo, locks,
        GoMap.table (fun x => if x = g then some (wrap64 (c + 1)) else f x)⟩,
        Itoa (wrap64 (c + 1)), ?_, rfl, ?_⟩
      · simp [Queue.NextSequenceNumber, GoMap.lookup, GoMap.assign, GoMap.index, hf]
      · intro a b ha hb
        simp only [GoMap.lookup] at ha hb
        have hg : ((GoMap.table f).lookup g).isSome = true := by
          simp [GoMap.lookup, hf]
        have e1 : a = g := by
          by_cases ea : a = g
          · exact ea
          · simp only [ea, if_false] at ha
            exact hc a g ha hg
        have e2 : b = g := by
          by_cases eb : b = g
          · exact eb
          · simp only [eb, if_false] at hb
            exact hc b g hb hg
        rw [e1, e2]

theorem runFifoCalls_preserves (calls : List FifoCall) :
    ∀ q : Queue, q.FIFOMessages.atMostOneKey → q.FIFOSequenceNumbers.atMostOneKey →
      ∃ q1 : Queue, runFifoCalls q calls = Run.done q1 ∧
        q1.FIFOMessages.atMostOneKey ∧ q1.FIFOSequenceNumbers.atMostOneKey := by
  induction calls with
  | nil =>
    intro q hl hc
    exact ⟨q, rfl, hl, hc⟩
  | cons c cs ih =>
    intro q hl hc
    cases c with
    | next g =>
      obtain ⟨q1, s, hrun, hlocks, hcount⟩ := NextSequenceNumber_atMostOneKey q g hc
      obtain ⟨q2, h2, hl2, hc2⟩ := ih q1 (by rw [hlocks]; exact hl) hcount
      refine ⟨q2, ?_, hl2, hc2⟩
      simp only [runFifoCalls, hrun, h2]
    | lock g =>
      obtain ⟨hl1, hc1⟩ := LockGroup_atMostOneKey q g hl
      obtain ⟨q2, h2, hl2, hc2⟩ := ih (q.LockGroup g) hl1 (by rw [hc1]; exact hc)
      exact ⟨q2, by simp only [runFifoCalls, h2], hl2, hc2⟩
    | unlock g =>
      obtain ⟨hl1, hc1⟩ := UnlockGroup_atMostOneKey q g hl
      obtain ⟨q2, h2, hl2, hc2⟩ := ih (q.UnlockGroup g) hl1 (by rw [hc1]; exact hc)
      exact ⟨q2, by simp only [runFifoCalls, h2], hl2, hc2⟩

/-- C17: from a queue whose lock table and counter table have no key (empty or
nil), every finite sequence of `NextSequenceNumber`, `LockGroup` and
`UnlockGroup` calls runs to a state, without panic, in which the lock table
holds at most one group and the counter table holds at most one group. -/
theorem runFifoCalls_atMostOneKey (q : Queue) (calls : List FifoCall)
    (hl : q.FIFOMessages.hasNoKey) (hc : q.FIFOSequenceNumbers.hasNoKey) :
    ∃ q1 : Queue, runFifoCalls q calls = Run.done q1 ∧
      q1.FIFOMessages.atMostOneKey ∧ q1.FIFOSequenceNumbers.atMostOneKey :=
  runFifoCalls_preserves calls q (atMostOneKey_of_hasNoKey _ hl) (atMostOneKey_of_hasNoKey _ hc)

/-- C17, at a concrete input: a nil lock table and an empty counter table, and
calls that name the groups A and B in turn. -/
theorem runFifoCalls_atMostOneKey_witness :
    (Queue.withTables GoMap.nil GoMap.empty).FIFOMessages.hasNoKey ∧
    (Queue.withTables GoMap.nil GoMap.empty).FIFOSequenceNumbers.hasNoKey ∧
    ∃ q1 : Queue,
      runFifoCalls (Queue.withTables GoMap.nil GoMap.empty)
        [FifoCall.next "A", FifoCall.lock "A", FifoCall.next "B", FifoCall.lock "B",
          FifoCall.unlock "A"] = Run.done q1 ∧
      q1.FIFOMessages.atMostOneKey ∧ q1.FIFOSequenceNumbers.atMostOneKey :=
  ⟨fun _ => rfl, fun _ => rfl,
   runFifoCalls_atMostOneKey (Queue.withTables GoMap.nil GoMap.empty)
     [FifoCall.next "A", FifoCall.lock "A", FifoCall.next "B", FifoCall.lock "B",
       FifoCall.unlock "A"] (fun _ => rfl) (fun _ => rfl)⟩

/-! ## Polling a FIFO queue -/

theorem pollFIFO_mem (q : Queue) (rest : List Message) :
    ∀ (earlier : List Message) (m : Message), m ∈ pollFIFO q earlier rest →
      q.IsLocked m.GroupID = false ∧
      (earlier ++ rest).find? (fun x => decide (x.GroupID = m.GroupID)) = some m := by
  induction rest with
  | nil =>
    intro earlier m hm
    simp [pollFIFO] at hm
  | cons x later ih =>
    intro earlier m hm
    have hrec : m ∈ pollFIFO q (earlier ++ [x]) later →
        q.IsLocked m.GroupID = false ∧
        (earlier ++ x :: later).find? (fun y => decide (y.GroupID = m.GroupID)) = some m := by
      intro h
      have := ih (earlier ++ [x]) m h
      simpa [List.append_assoc] using this
    unfold pollFIFO at hm
    by_cases hcond : (earlier.all (fun e => decide (e.GroupID ≠ x.GroupID))
        && !q.IsLocked x.GroupID) = true
    · rw [if_pos hcond] at hm
      rcases List.mem_cons.mp hm with hmx | hmr
      · subst hmx
        simp only [Bool.and_eq_true, List.all_eq_true, decide_eq_true_eq, Bool.not_eq_true']
          at hcond
        refine ⟨hcond.2, ?_⟩
        have hnone : earlier.find? (fun y => decide (y.GroupID = m.GroupID)) = none := by
          rw [List.find?_eq_none]
          intro e he
          simpa using hcond.1 e he
        rw [List.find?_append, hnone]
        simp
      · exact hrec hmr
    · rw [if_neg hcond] at hm
      exact hrec hm

theorem pollFIFO_filter_earlier (q : Queue) (g : String) (rest : List Message) :
    ∀ earlier : List Message, (∃ e ∈ earlier, e.GroupID = g) →
      (pollFIFO q earlier rest).filter (fun m => decide (m.GroupID = g)) = [] := by
  induction rest with
  | nil =>
    intro earlier _
    simp [pollFIFO]
  | cons x later ih =>
    intro earlier hex
    obtain ⟨e, he, heg⟩ := hex
    have hrec := ih (earlier ++ [x]) ⟨e, List.mem_append_left _ he, heg⟩
    unfold pollFIFO
    by_cases hcond : (earlier.all (fun e => decide (e.GroupID ≠ x.GroupID))
        && !q.IsLocked x.GroupID) = true
    · rw [if_pos hcond]
      simp only [Bool.and_eq_true, List.all_eq_true, decide_eq_true_eq, Bool.not_eq_true']
        at hcond
      have hxg : ¬ x.GroupID = g := by
        intro h
        exact hcond.1 e he (by rw [heg, h])
      rw [List.filter_cons_of_neg (by simpa using hxg)]
      exact hrec
    · rw [if_neg hcond]
      exact hrec

theorem pollFIFO_filter_length (q : Queue) (g : String) (rest : List Message) :
    ∀ earlier : List Message,
      ((pollFIFO q earlier rest).filter (fun m => decide (m.GroupID = g))).length ≤ 1 := by
  induction rest with
  | nil =>
    intro earlier
    simp [pollFIFO]
  | cons x later ih =>
    intro earlier
    unfold pollFIFO
    by_cases hcond : (earlier.all (fun e => decide (e.GroupID ≠ x.GroupID))
        && !q.IsLocked x.GroupID) = true
    · rw [if_pos hcond]
      by_cases hxg : x.GroupID = g
      · rw [List.filter_cons_of_pos (by simpa using hxg),
          pollFIFO_filter_earlier q g later (earlier ++ [x])
            ⟨x, List.mem_append_right _ (List.mem_singleton.mpr rfl), hxg⟩]
        simp
      · rw [List.filter_cons_of_neg (by simpa using hxg)]
        exact ih _
    · rw [if_neg hcond]
      exact ih _

/-- C15: on a FIFO queue, every message `PollReady` returns belongs to a group
for which `IsLocked` is false and is the head (earliest-enqueued message) of
its group, and for each group at most one message is returned. -/
theorem PollReady_fifo_heads_of_unlocked (visibilityElapsed : Message → Time → Bool)
    (inFlight : Message → Bool) (q : Queue) (now : Time) (hfifo : q.IsFIFO = true) :
    (∀ m : Message, m ∈ PollReady visibilityElapsed inFlight q now →
      q.IsLocked m.GroupID = false ∧
      q.Messages.find? (fun x => decide (x.GroupID = m.GroupID)) = some m) ∧
    (∀ g : String,
      ((PollReady visibilityElapsed inFlight q now).filter
        (fun m => decide (m.GroupID = g))).length ≤ 1) := by
  unfold PollReady
  rw [if_pos hfifo]
  refine ⟨fun m hm => ?_, fun g => pollFIFO_filter_length q g q.Messages []⟩
  have := pollFIFO_mem q q.Messages [] m hm
  simpa using this

/-- C15, at a concrete input: the queue holds a message of the locked group A
and two messages of group B; `PollReady` returns the first message of B only. -/
theorem PollReady_fifo_heads_of_unlocked_witness :
    Queue.sampleFIFO.IsFIFO = true ∧
    PollReady (fun _ _ => true) (fun _ => false) Queue.sampleFIFO ⟨0⟩
      = [Message.inGroup "B" [2]] ∧
    (∀ m : Message, m ∈ PollReady (fun _ _ => true) (fun _ => false) Queue.sampleFIFO ⟨0⟩ →
      Queue.sampleFIFO.IsLocked m.GroupID = false ∧
      Queue.sampleFIFO.Messages.find? (fun x => decide (x.GroupID = m.GroupID)) = some m) ∧
    (∀ g : String,
      ((PollReady (fun _ _ => true) (fun _ => false) Queue.sampleFIFO ⟨0⟩).filter
        (fun m => decide (m.GroupID = g))).length ≤ 1) :=
  ⟨rfl, rfl,
   PollReady_fifo_heads_of_unlocked (fun _ _ => true) (fun _ => false) Queue.sampleFIFO ⟨0⟩
     rfl⟩

end Goaws
